import Mathlib

/-!
Verification of the Indie Coach application against its specification.

The TypeScript sources are shallowly embedded: JavaScript numbers are
modelled as exact rationals, a value that `parseFloat` fails to parse
(`NaN`) is modelled as `none : Option ℚ`, strings are Lean `String`s or
`List Char` where character-level scanning matters, and fallible
JavaScript field accesses are modelled with `Option`.
-/

namespace IndieCoach

/-! ## Ticket estimator (components/ErrorBoundary.tsx, `TicketEstimator`) -/

/-- Model of the JavaScript expression `parseFloat(s) || 0`: the argument is
the result of `parseFloat` (`none` standing for `NaN`); `NaN`, `0` and `-0`
are falsy, so they yield the right operand `0`. -/
def jsOrZero : Option ℚ → ℚ
  | none => 0
  | some q => if q = 0 then 0 else q

/-- The record of derived quantities returned by the `useMemo` block of
`TicketEstimator.calculations`. -/
structure TicketCalcResult where
  ticketsSold : ℤ
  grossTicketRevenue : ℚ
  grossMerchRevenue : ℚ
  totalGrossRevenue : ℚ
  venueCutCost : ℚ
  totalCosts : ℚ
  netProfit : ℚ
deriving DecidableEq

/-- Embedding of `TicketEstimator.calculations` (ErrorBoundary.tsx, lines
213-234).  Each argument is the `parseFloat` result of the corresponding
input string; the body mirrors the source line by line. -/
def calculations (ticketPrice venueCapacity sellThroughRate merchSpendPerGuest
    venueFeePercent venueCostFixed marketingCost crewCost : Option ℚ) :
    TicketCalcResult :=
  let numTicketPrice := jsOrZero ticketPrice
  let numVenueCapacity := jsOrZero venueCapacity
  let numSellThroughRate := jsOrZero sellThroughRate
  let numMerchSpendPerGuest := jsOrZero merchSpendPerGuest
  let numVenueFeePercent := jsOrZero venueFeePercent
  let numVenueCostFixed := jsOrZero venueCostFixed
  let numMarketingCost := jsOrZero marketingCost
  let numCrewCost := jsOrZero crewCost
  let ticketsSold : ℤ := ⌊numVenueCapacity * (numSellThroughRate / 100)⌋
  let grossTicketRevenue : ℚ := (ticketsSold : ℚ) * numTicketPrice
  let grossMerchRevenue : ℚ := (ticketsSold : ℚ) * numMerchSpendPerGuest
  let totalGrossRevenue := grossTicketRevenue + grossMerchRevenue
  let venueCutCost := grossTicketRevenue * (numVenueFeePercent / 100)
  let totalCosts := venueCutCost + numVenueCostFixed + numMarketingCost + numCrewCost
  let netProfit := totalGrossRevenue - totalCosts
  ⟨ticketsSold, grossTicketRevenue, grossMerchRevenue, totalGrossRevenue,
    venueCutCost, totalCosts, netProfit⟩

/-- Specification-side version of the estimator: a total function on eight
plain rationals, with no partial parsing step left ("every derived quantity
is a defined number").  Stated from the spec's description of the
derived-field calculation. -/
def calculationsTotalSpec (ticketPrice venueCapacity sellThroughRate merchSpendPerGuest
    venueFeePercent venueCostFixed marketingCost crewCost : ℚ) : TicketCalcResult :=
  let ticketsSold : ℤ := ⌊venueCapacity * (sellThroughRate / 100)⌋
  let grossTicketRevenue : ℚ := (ticketsSold : ℚ) * ticketPrice
  let grossMerchRevenue : ℚ := (ticketsSold : ℚ) * merchSpendPerGuest
  let totalGrossRevenue := grossTicketRevenue + grossMerchRevenue
  let venueCutCost := grossTicketRevenue * (venueFeePercent / 100)
  let totalCosts := venueCutCost + venueCostFixed + marketingCost + crewCost
  let netProfit := totalGrossRevenue - totalCosts
  ⟨ticketsSold, grossTicketRevenue, grossMerchRevenue, totalGrossRevenue,
    venueCutCost, totalCosts, netProfit⟩

/-! ## Data model (types.ts) -/

/-- The `Role` enum: `'user'` and `'model'`. -/
inductive Role
  | user
  | model
deriving DecidableEq

/-- The file payload of a `FilePart` (name, MIME type, base64 data). -/
structure FileData where
  name : String
  mimeType : String
  data : String
deriving DecidableEq

/-- `AppPart = TextPart | FilePart`, discriminated by the `type` field. -/
inductive AppPart
  | text (text : String)
  | file (file : FileData)
deriving DecidableEq

/-- A chat `Message`: role, ordered parts, timestamp. -/
structure Message where
  role : Role
  parts : List AppPart
  timestamp : ℤ
deriving DecidableEq

/-- A `ChatSession`: id, title, ordered messages. -/
structure ChatSession where
  id : String
  title : String
  messages : List Message
deriving DecidableEq

/-- A `User` record (name and unverified email). -/
structure User where
  firstName : String
  lastName : String
  email : String
deriving DecidableEq

/-! ## Serverless chat endpoint (api/chat.ts) -/

/-- An SDK `Part`: either `{ text }` or `{ inlineData: { mimeType, data } }`. -/
inductive ApiPart
  | text (text : String)
  | inlineData (mimeType data : String)
deriving DecidableEq

/-- An SDK `Content`: a role together with converted parts. -/
structure Content where
  role : Role
  parts : List ApiPart
deriving DecidableEq

/-- Embedding of `appPartsToApiParts`. -/
def appPartsToApiParts (parts : List AppPart) : List ApiPart :=
  parts.map fun part =>
    match part with
    | .text t => .text t
    | .file f => .inlineData f.mimeType f.data

/-- The per-message conversion performed by the final `map` of
`appMessagesToApiContents`. -/
def messageToContent (m : Message) : Content :=
  ⟨m.role, appPartsToApiParts m.parts⟩

/-- The `forEach` loop of `appMessagesToApiContents`: keep a message only
when its role differs from the last kept role (`lastRole` starts as
`null`, modelled as `none`). -/
def filterAlt (lastRole : Option Role) : List Message → List Message
  | [] => []
  | m :: ms =>
    if lastRole = some m.role then filterAlt lastRole ms
    else m :: filterAlt (some m.role) ms

/-- The guarded trailing `pop`: if the list is non-empty and its last
message is not from the user, drop it (api/chat.ts, line 218). -/
def dropTrailingNonUser (l : List Message) : List Message :=
  match l.getLast? with
  | some m => if m.role = Role.user then l else l.dropLast
  | none => l

/-- Embedding of `appMessagesToApiContents` from api/chat.ts (the version
with the length guard before the trailing pop). -/
def appMessagesToApiContents (messages : List Message) : List Content :=
  (dropTrailingNonUser (filterAlt none messages)).map messageToContent

/-- Embedding of `appMessagesToApiContents` from src/unnamed/part_001: the
trailing pop reads `filteredMessages[filteredMessages.length-1].role`
without a length guard, so on an empty filtered list the member access on
`undefined` throws a `TypeError`; the thrown outcome is modelled as
`none`. -/
def appMessagesToApiContentsNoGuard (messages : List Message) :
    Option (List Content) :=
  let filteredMessages := filterAlt none messages
  match filteredMessages.getLast? with
  | none => none
  | some m =>
      some ((if m.role = Role.user then filteredMessages
             else filteredMessages.dropLast).map messageToContent)

/-- The body's `messages` field when it is present: either an actual array
of messages or some non-array value (which, like every falsy value, fails
the `!messages || !Array.isArray(messages)` test). -/
inductive MessagesField
  | arr (ms : List Message)
  | notArray
deriving DecidableEq

/-- The observable outcome of one run of the `/api/chat` handler: HTTP
status, `Content-Type` header, whether `Transfer-Encoding: chunked` was
set, the bytes written with `res.write`, the JSON error body if any, and
whether `ai.models.generateContentStream` was invoked. -/
structure ChatResponse where
  status : ℕ
  contentType : String
  chunked : Bool
  streamBytes : String
  jsonError : Option String
  apiCalled : Bool
deriving DecidableEq

/-- The `for await` relay loop: each chunk's `text` (possibly absent) is
written when it is truthy, i.e. present and non-empty. -/
def writeChunks : List (Option String) → String
  | [] => ""
  | none :: rest => writeChunks rest
  | some t :: rest => if t = "" then writeChunks rest else t ++ writeChunks rest

/-- Embedding of the api/chat.ts `handler`: method check, API-key check,
body validation, empty-contents check, then relay of the model stream as
chunked plain text.  `stream` is the chunk sequence the model API would
produce if called. -/
def chatHandler (method : String) (apiKey : Option String)
    (body : Option MessagesField) (stream : List (Option String)) : ChatResponse :=
  if method ≠ "POST" then
    ⟨405, "application/json", false, "", some "Method Not Allowed", false⟩
  else
    match apiKey with
    | none => ⟨500, "application/json", false, "", some "API key is missing", false⟩
    | some _ =>
      match body with
      | some (.arr ms) =>
        if (appMessagesToApiContents ms).isEmpty then
          ⟨400, "application/json", false, "",
            some "Cannot process empty or invalid message history.", false⟩
        else
          ⟨200, "text/plain; charset=utf-8", true, writeChunks stream, none, true⟩
      | _ => ⟨400, "application/json", false, "", some "Invalid message history", false⟩

/-! ## Login (App.tsx, `handleLogin`) -/

/-- Model of the JavaScript `toLowerCase()` (character-wise lowering; the
two agree on ASCII email strings). -/
def jsToLowerString (s : String) : String := String.mk (s.toList.map Char.toLower)

/-- Embedding of `handleLogin` (App.tsx, lines 376-398): look up the first
stored user whose lowercased email equals the lowercased submitted email;
on a hit, write it to the `indie-coach-active-user` key and return `true`;
otherwise return `false` and leave the key unchanged.  The pair is
(returned boolean, resulting active-user key). -/
def handleLogin (users : List User) (activeUser : Option User)
    (email : String) : Bool × Option User :=
  match users.find? (fun u => jsToLowerString u.email == jsToLowerString email) with
  | some foundUser => (true, some foundUser)
  | none => (false, activeUser)

/-! ## History persistence (App.tsx, history-saving effect, lines 186-204) -/

/-- A persisted file reference; the base64 `data` field may be absent. -/
structure SavedFileData where
  name : String
  mimeType : String
  data : Option String
deriving DecidableEq

/-- A persisted part. -/
inductive SavedPart
  | text (text : String)
  | file (file : SavedFileData)
deriving DecidableEq

/-- A persisted message. -/
structure SavedMessage where
  role : Role
  parts : List SavedPart
  timestamp : ℤ
deriving DecidableEq

/-- A persisted session. -/
structure SavedSession where
  id : String
  title : String
  messages : List SavedMessage
deriving DecidableEq

/-- The per-part mapping of the history-saving effect: text parts are kept
verbatim; for file parts the destructuring `const (data, ...restOfFile) =
part.file` drops the base64 `data` field before serialization. -/
def savePart : AppPart → SavedPart
  | .text t => .text t
  | .file f => .file ⟨f.name, f.mimeType, none⟩

/-- The per-message mapping of the history-saving effect. -/
def saveMessage (m : Message) : SavedMessage :=
  ⟨m.role, m.parts.map savePart, m.timestamp⟩

/-- The per-session mapping of the history-saving effect. -/
def saveSession (s : ChatSession) : SavedSession :=
  ⟨s.id, s.title, s.messages.map saveMessage⟩

/-- Embedding of the history-saving effect: the localStorage key written
and the value serialized under it. -/
def saveHistoryEffect (u : User) (chatHistory : List ChatSession) :
    String × List SavedSession :=
  ("indie-coach-history-" ++ u.email, chatHistory.map saveSession)

/-- Specification-side serialization following the claim's words: every
session, message, and part — including the base64 `data` field of file
parts — persisted unchanged. -/
def savePartSpec : AppPart → SavedPart
  | .text t => .text t
  | .file f => .file ⟨f.name, f.mimeType, some f.data⟩

/-- Whole-object serialization of the history, from the claim's words. -/
def saveHistorySpec (chatHistory : List ChatSession) : List SavedSession :=
  chatHistory.map fun s =>
    ⟨s.id, s.title, s.messages.map fun m =>
      ⟨m.role, m.parts.map savePartSpec, m.timestamp⟩⟩

/-- Removal of the base64 payload from an already-serialized part, used to
state the amended claim C5. -/
def removeSavedFileData : SavedPart → SavedPart
  | .text t => .text t
  | .file f => .file ⟨f.name, f.mimeType, none⟩

/-! ## Image generation endpoint (src/unnamed/part_002) -/

/-- The body's `prompt` field when present: a string, or some non-string
value (which fails `typeof prompt !== 'string'`). -/
inductive PromptField
  | str (s : String)
  | nonString
deriving DecidableEq

/-- An `inlineData` payload of a model-response part. -/
structure InlineData where
  mimeType : String
  data : String
deriving DecidableEq

/-- A part of a model response candidate's content. -/
structure GenPart where
  text : Option String
  inlineData : Option InlineData
deriving DecidableEq

/-- A candidate's `content` object, whose `parts` field may be absent. -/
structure CandidateContent where
  parts : Option (List GenPart)
deriving DecidableEq

/-- A response candidate, whose `content` field may be absent. -/
structure Candidate where
  content : Option CandidateContent
deriving DecidableEq

/-- A model response, whose `candidates` field may be absent. -/
structure GenResponse where
  candidates : Option (List Candidate)
deriving DecidableEq

/-- The observable outcome of the `/api/generate-image` handler: status,
the `imageUrl` JSON field on success, the `error` JSON field otherwise. -/
structure ImageResponse where
  status : ℕ
  imageUrl : Option String
  errorMsg : Option String
deriving DecidableEq

/-- The scan loop of the image handler: the first part carrying
`inlineData`, if any (`break` after the first hit). -/
def firstInlinePart : List GenPart → Option InlineData
  | [] => none
  | p :: ps =>
    match p.inlineData with
    | some d => some d
    | none => firstInlinePart ps

/-- Embedding of the src/unnamed/part_002 `handler`.  Notes kept from the
source: `!prompt` also rejects the empty string; only `candidates[0]` is
examined; on `candidates` being the empty array, `candidates[0].content`
throws a `TypeError`, which the `catch` turns into a 500 error JSON. -/
def imageHandler (method : String) (apiKey : Option String)
    (promptField : Option PromptField) (resp : GenResponse) : ImageResponse :=
  if method ≠ "POST" then ⟨405, none, some "Method Not Allowed"⟩
  else
    match apiKey with
    | none => ⟨500, none, some "API key is missing"⟩
    | some _ =>
      match promptField with
      | some (.str prompt) =>
        if prompt = "" then ⟨400, none, some "Invalid prompt provided"⟩
        else
          match resp.candidates with
          | none => ⟨500, none, some "The AI did not return an image."⟩
          | some [] =>
            ⟨500, none, some "Cannot read properties of undefined (reading content)"⟩
          | some (c :: _) =>
            match c.content with
            | none => ⟨500, none, some "The AI did not return an image."⟩
            | some content =>
              match content.parts with
              | none => ⟨500, none, some "The AI did not return an image."⟩
              | some parts =>
                match firstInlinePart parts with
                | some d =>
                  ⟨200, some ("data:" ++ d.mimeType ++ ";base64," ++ d.data), none⟩
                | none => ⟨500, none, some "The AI did not return an image."⟩
      | _ => ⟨400, none, some "Invalid prompt provided"⟩

/-! ## Streamed-response suggestion parsing (App.tsx, `handleSendMessage`,
lines 303-316) -/

/-- The literal opening tag of the regex `\[SUGGESTIONS\](.*?)\[\/SUGGESTIONS\]`. -/
def openTagL : List Char := "[SUGGESTIONS]".toList

/-- The literal closing tag of the same regex. -/
def closeTagL : List Char := "[/SUGGESTIONS]".toList

/-- Boolean prefix test on character lists. -/
def startsWithL : List Char → List Char → Bool
  | [], _ => true
  | _ :: _, [] => false
  | p :: ps, c :: cs => p == c && startsWithL ps cs

/-- The whitespace characters removed by the JavaScript `trim()` (space,
tab, line feed, carriage return, vertical tab, form feed). -/
def isWsChar (c : Char) : Bool :=
  c == ' ' || c == '\t' || c == '\n' || c == '\r' ||
    c == Char.ofNat 11 || c == Char.ofNat 12

/-- Model of the JavaScript `trim()`. -/
def jsTrim (s : List Char) : List Char :=
  ((s.dropWhile isWsChar).reverse.dropWhile isWsChar).reverse

/-- The lazy group-and-closing-tag part of the regex engine's work at a
fixed starting position: the shortest interior made of non-line-break
characters followed by the closing tag, if one exists.  Returns the
interior and the text after the closing tag. -/
def findClose : List Char → Option (List Char × List Char)
  | [] => none
  | c :: cs =>
    if startsWithL closeTagL (c :: cs) then
      some ([], (c :: cs).drop closeTagL.length)
    else if c == '\n' || c == '\r' then none
    else
      match findClose cs with
      | some (int, rest) => some (c :: int, rest)
      | none => none

/-- The leftmost-match search of the regex engine: scan positions left to
right; at the first position where the opening tag is followed by a valid
lazy interior and closing tag, return the text before the match, the
interior, and the text after the match. -/
def findMatch : List Char → Option (List Char × List Char × List Char)
  | [] => none
  | c :: cs =>
    if startsWithL openTagL (c :: cs) then
      match findClose ((c :: cs).drop openTagL.length) with
      | some (int, rest) => some ([], int, rest)
      | none =>
        match findMatch cs with
        | some (pre, int, rest) => some (c :: pre, int, rest)
        | none => none
    else
      match findMatch cs with
      | some (pre, int, rest) => some (c :: pre, int, rest)
      | none => none

/-- Embedding of the post-stream processing of `handleSendMessage`: match
the suggestion regex against the accumulated response; when the match
exists and its captured group is truthy (non-empty), set the follow-up
prompts to the pipe-split, trimmed, non-empty entries of the group and
remove the matched block from the final text, trimming it; otherwise keep
the full text and set no prompts.  Returns (final message text, follow-up
prompts). -/
def processResponse (full : List Char) : List Char × List (List Char) :=
  match findMatch full with
  | some (pre, int, post) =>
    if int = [] then (full, [])
    else (jsTrim (pre ++ post),
      ((int.splitOn ('|')).map jsTrim).filter (fun s => s ≠ []))
  | none => (full, [])

/-! ## Concrete data used by witnesses -/

/-- A concrete response part with no inline data. -/
def demoTextPart : GenPart := ⟨some "caption", none⟩

/-- A concrete response part carrying inline data. -/
def demoInlinePart : GenPart := ⟨none, some ⟨"image/png", "QUJD"⟩⟩

/-- A response whose first candidate carries inline data after a text
part. -/
def demoInlineResp : GenResponse :=
  ⟨some [⟨some ⟨some [demoTextPart, demoInlinePart]⟩⟩]⟩

/-- A response where only the second candidate carries inline data. -/
def demoSecondCandidateResp : GenResponse :=
  ⟨some [⟨some ⟨some [demoTextPart]⟩⟩, ⟨some ⟨some [demoInlinePart]⟩⟩]⟩

/-- A concrete stored user. -/
def demoUser : User := ⟨"Alice", "Smith", "Alice@Example.com"⟩

/-- A concrete session holding a file part with a base64 payload. -/
def demoFileSession : ChatSession :=
  ⟨"1700000000000", "Imported Chat",
    [⟨Role.user, [AppPart.file ⟨"a.png", "image/png", "QUJD"⟩], 0⟩]⟩

/-- A concrete user message. -/
def demoUserMsg : Message := ⟨Role.user, [AppPart.text "hello"], 0⟩

/-- A concrete model message. -/
def demoModelMsg : Message := ⟨Role.model, [AppPart.text "hi there"], 1⟩

end IndieCoach

namespace IndieCoach

/-! ## Theorems -/

/-- The `forEach` filter only ever removes messages: its output is a
sublist of its input. -/
theorem filterAlt_sublist (r : Option Role) (ms : List Message) :
    (filterAlt r ms).Sublist ms := by
  induction ms generalizing r with
  | nil => simp [filterAlt]
  | cons m tl ih =>
    by_cases h : r = some m.role
    · simp only [filterAlt, if_pos h]
      exact (ih r).trans (List.sublist_cons_self m tl)
    · simp only [filterAlt, if_neg h]
      exact (ih (some m.role)).cons₂ m

/-- The head of the filtered list never carries the role recorded in
`lastRole`. -/
theorem filterAlt_head_ne (r : Option Role) (ms : List Message) :
    ∀ m ∈ (filterAlt r ms).head?, some m.role ≠ r := by
  induction ms generalizing r with
  | nil => simp [filterAlt]
  | cons m tl ih =>
    by_cases h : r = some m.role
    · simpa only [filterAlt, if_pos h] using ih r
    · simp only [filterAlt, if_neg h, List.head?_cons, Option.mem_def,
        Option.some.injEq]
      intro x hx
      subst hx
      exact fun e => h e.symm

/-- Adjacent messages in the filtered list always have different roles. -/
theorem filterAlt_chain (r : Option Role) (ms : List Message) :
    List.Chain' (fun a b => a.role ≠ b.role) (filterAlt r ms) := by
  induction ms generalizing r with
  | nil => simp [filterAlt]
  | cons m tl ih =>
    by_cases h : r = some m.role
    · simpa only [filterAlt, if_pos h] using ih r
    · simp only [filterAlt, if_neg h]
      refine List.chain'_cons'.mpr ⟨?_, ih (some m.role)⟩
      intro y hy
      have hne := filterAlt_head_ne (some m.role) tl y hy
      intro he
      exact hne (by rw [he])

/-- Dropping the last element preserves `Chain'`. -/
theorem chain'_dropLast {α : Type} {R : α → α → Prop} {l : List α}
    (h : List.Chain' R l) : List.Chain' R l.dropLast := by
  cases hL : l.getLast? with
  | none =>
    rw [List.getLast?_eq_none_iff] at hL
    subst hL
    simp
  | some a =>
    have hsplit := List.dropLast_append_getLast? a hL
    rw [← hsplit] at h
    exact (List.chain'_append.mp h).1

/-- On a non-empty input, the filter keeps the first message. -/
theorem filterAlt_none_cons (m : Message) (ms : List Message) :
    filterAlt none (m :: ms) = m :: filterAlt (some m.role) ms := by
  simp [filterAlt]

/-- Claim C9: the output of `appMessagesToApiContents` (api/chat.ts) has no
two adjacent entries with the same role, is the image of a sublist of the
input (so relative order is preserved), and, when non-empty, ends with a
`user` entry. -/
theorem chat_contents_invariants (ms : List Message) :
    List.Chain' (fun a b => a.role ≠ b.role) (appMessagesToApiContents ms)
    ∧ (∃ kept : List Message, kept.Sublist ms ∧
        appMessagesToApiContents ms = kept.map messageToContent)
    ∧ ∀ c ∈ (appMessagesToApiContents ms).getLast?, c.role = Role.user := by
  have hchainF := filterAlt_chain none ms
  have hsubF := filterAlt_sublist none ms
  have hroleMap : ∀ m : Message, (messageToContent m).role = m.role := fun _ => rfl
  refine ⟨?_, ?_, ?_⟩
  · rw [appMessagesToApiContents, List.chain'_map]
    simp only [hroleMap]
    rw [dropTrailingNonUser]
    cases hL : (filterAlt none ms).getLast? with
    | none => rw [List.getLast?_eq_none_iff] at hL; simp [hL]
    | some m =>
      by_cases hu : m.role = Role.user
      · simpa [hu] using hchainF
      · simpa [hu] using chain'_dropLast hchainF
  · refine ⟨dropTrailingNonUser (filterAlt none ms), ?_, rfl⟩
    rw [dropTrailingNonUser]
    cases hL : (filterAlt none ms).getLast? with
    | none => exact hsubF
    | some m =>
      by_cases hu : m.role = Role.user
      · simpa [hu] using hsubF
      · simp only [hu, if_neg]
        exact (List.dropLast_sublist _).trans hsubF
  · intro c hc
    rw [Option.mem_def, appMessagesToApiContents, List.getLast?_map,
      Option.map_eq_some'] at hc
    obtain ⟨m, hm, rfl⟩ := hc
    rw [hroleMap]
    simp only [dropTrailingNonUser] at hm
    cases hL : (filterAlt none ms).getLast? with
    | none =>
      simp only [hL] at hm
      exact absurd hm (by simp)
    | some a =>
      simp only [hL] at hm
      by_cases hu : a.role = Role.user
      · rw [if_pos hu] at hm
        have hma : some a = some m := hL.symm.trans hm
        cases hma
        exact hu
      · rw [if_neg hu] at hm
        -- `m` is the last element of `dropLast`; it is chained to `a`.
        have hsplit := List.dropLast_append_getLast? a hL
        have hch := hchainF
        rw [← hsplit] at hch
        have hne := (List.chain'_append.mp hch).2.2 m hm (a) (by simp)
        cases hr : m.role with
        | user => rfl
        | model =>
          exfalso
          cases ha : a.role with
          | user => exact hu ha
          | model => exact hne (by rw [hr, ha])

/-- Witness for claim C9 at a concrete message list. -/
theorem chat_contents_invariants_witness :
    List.Chain' (fun a b => a.role ≠ b.role)
        (appMessagesToApiContents [demoUserMsg, demoModelMsg, demoModelMsg])
    ∧ ∀ c ∈ (appMessagesToApiContents
        [demoUserMsg, demoModelMsg, demoModelMsg]).getLast?, c.role = Role.user := by
  have h := chat_contents_invariants [demoUserMsg, demoModelMsg, demoModelMsg]
  exact ⟨h.1, h.2.2⟩

/-- Counterexample to claim C10 as stated: on the empty message list the
guarded version (api/chat.ts) returns the empty contents list while the
unguarded version (src/unnamed/part_001) throws a `TypeError`. -/
theorem chat_contents_guard_counterexample :
    appMessagesToApiContentsNoGuard [] ≠ some (appMessagesToApiContents []) := by
  decide

/-- Claim C10 as amended: on every non-empty input list the two
implementations of `appMessagesToApiContents` agree (the unguarded one
returns normally with the same result). -/
theorem chat_contents_guard_agree (ms : List Message) (h : ms ≠ []) :
    appMessagesToApiContentsNoGuard ms = some (appMessagesToApiContents ms) := by
  obtain ⟨m, tl, rfl⟩ := List.exists_cons_of_ne_nil h
  simp only [appMessagesToApiContentsNoGuard, appMessagesToApiContents,
    filterAlt_none_cons]
  cases hL : (m :: filterAlt (some m.role) tl).getLast? with
  | none => simp [List.getLast?_eq_none_iff] at hL
  | some x => simp only [dropTrailingNonUser, hL]

/-- Witness for the amended claim C10 at a concrete non-empty list. -/
theorem chat_contents_guard_agree_witness :
    appMessagesToApiContentsNoGuard [demoUserMsg, demoModelMsg] =
      some (appMessagesToApiContents [demoUserMsg, demoModelMsg]) :=
  chat_contents_guard_agree [demoUserMsg, demoModelMsg] (by decide)

/-- Claim C1: in the ticket estimator, for every choice of the eight input
values, the computed net profit equals total gross revenue minus total
costs, with total gross revenue `ticketsSold * ticketPrice + ticketsSold *
merchSpendPerGuest`, `ticketsSold = floor (venueCapacity * sellThroughRate
/ 100)`, and total costs `grossTicketRevenue * venueFeePercent / 100 +
venueCostFixed + marketingCost + crewCost`. -/
theorem estimator_net_profit_eq_gross_minus_costs
    (ticketPrice venueCapacity sellThroughRate merchSpendPerGuest
      venueFeePercent venueCostFixed marketingCost crewCost : Option ℚ) :
    (calculations ticketPrice venueCapacity sellThroughRate merchSpendPerGuest
        venueFeePercent venueCostFixed marketingCost crewCost).netProfit =
      ((⌊jsOrZero venueCapacity * jsOrZero sellThroughRate / 100⌋ : ℚ) * jsOrZero ticketPrice
          + (⌊jsOrZero venueCapacity * jsOrZero sellThroughRate / 100⌋ : ℚ) * jsOrZero merchSpendPerGuest)
        - ((⌊jsOrZero venueCapacity * jsOrZero sellThroughRate / 100⌋ : ℚ) * jsOrZero ticketPrice
              * jsOrZero venueFeePercent / 100
            + jsOrZero venueCostFixed + jsOrZero marketingCost + jsOrZero crewCost) := by
  simp only [calculations]
  rw [show jsOrZero venueCapacity * (jsOrZero sellThroughRate / 100)
      = jsOrZero venueCapacity * jsOrZero sellThroughRate / 100 from (mul_div_assoc _ _ _).symm]
  ring

/-- Claim C6: the estimator's derived-field calculation is total: for every
tuple of inputs (including non-parsing ones, modelled as `none`), it agrees
with the total function on rationals obtained by treating every
non-parsing input as `0`. -/
theorem estimator_total_nonparsing_as_zero
    (ticketPrice venueCapacity sellThroughRate merchSpendPerGuest
      venueFeePercent venueCostFixed marketingCost crewCost : Option ℚ) :
    calculations ticketPrice venueCapacity sellThroughRate merchSpendPerGuest
        venueFeePercent venueCostFixed marketingCost crewCost =
      calculationsTotalSpec (ticketPrice.getD 0) (venueCapacity.getD 0)
        (sellThroughRate.getD 0) (merchSpendPerGuest.getD 0)
        (venueFeePercent.getD 0) (venueCostFixed.getD 0)
        (marketingCost.getD 0) (crewCost.getD 0) := by
  have hz : ∀ o : Option ℚ, jsOrZero o = o.getD 0 := by
    intro o
    cases o with
    | none => rfl
    | some q =>
      by_cases hq : q = 0 <;> simp [jsOrZero, hq]
  simp only [calculations, calculationsTotalSpec, hz]

/-- The relay loop writes exactly the concatenation, in stream order, of
the present, non-empty chunk texts. -/
theorem writeChunks_eq_concat (stream : List (Option String)) :
    writeChunks stream =
      ((stream.filterMap id).filter (fun t => t ≠ "")).foldr (· ++ ·) "" := by
  induction stream with
  | nil => rfl
  | cons c rest ih =>
    cases c with
    | none => simpa [writeChunks] using ih
    | some t =>
      by_cases ht : t = "" <;> simp [writeChunks, ht, ih]

/-- Claim C3: on the success path (POST, API key configured, non-empty
converted history), the `/api/chat` handler answers 200 with Content-Type
`text/plain; charset=utf-8` and chunked transfer encoding, and the body it
writes is the concatenation, in stream order, of the text of every chunk
whose text is present and non-empty. -/
theorem chat_handler_stream_body (key : String) (ms : List Message)
    (stream : List (Option String))
    (h : (appMessagesToApiContents ms).isEmpty = false) :
    chatHandler "POST" (some key) (some (MessagesField.arr ms)) stream =
      ⟨200, "text/plain; charset=utf-8", true,
        ((stream.filterMap id).filter (fun t => t ≠ "")).foldr (· ++ ·) "",
        none, true⟩ := by
  simp [chatHandler, h, writeChunks_eq_concat]

/-- Witness for claim C3 on a concrete stream with an absent text and an
empty text chunk. -/
theorem chat_handler_stream_body_witness :
    chatHandler "POST" (some "k") (some (MessagesField.arr [demoUserMsg]))
        [some "Hel", none, some "", some "lo"] =
      ⟨200, "text/plain; charset=utf-8", true, "Hello", none, true⟩ := by
  have h := chat_handler_stream_body "k" [demoUserMsg]
    [some "Hel", none, some "", some "lo"] (by decide)
  rw [h]
  decide

/-- Counterexample to claim C4 as stated: when the API key is not
configured, a POST request with a missing `messages` field is answered
with status 500 (the key check precedes body validation), not 400. -/
theorem chat_handler_rejections_counterexample :
    (chatHandler "POST" none none []).status = 500 ∧
    ¬ (chatHandler "POST" none none []).status = 400 := by
  decide

/-- Claim C4 as amended: the handler answers 405 to every non-POST request;
when the API key is configured it answers 400 to POST requests whose
`messages` field is missing or not an array, and 400 when the converted
message history is empty; in each of these cases it writes no stream bytes
and does not call the model API. -/
theorem chat_handler_rejections (method : String) (apiKey : Option String)
    (body : Option MessagesField) (stream : List (Option String)) :
    (method ≠ "POST" →
      (chatHandler method apiKey body stream).status = 405 ∧
      (chatHandler method apiKey body stream).streamBytes = "" ∧
      (chatHandler method apiKey body stream).apiCalled = false)
    ∧ (method = "POST" → apiKey ≠ none →
        (body = none ∨ body = some MessagesField.notArray) →
      (chatHandler method apiKey body stream).status = 400 ∧
      (chatHandler method apiKey body stream).streamBytes = "" ∧
      (chatHandler method apiKey body stream).apiCalled = false)
    ∧ (∀ ms, method = "POST" → apiKey ≠ none →
        body = some (MessagesField.arr ms) →
        (appMessagesToApiContents ms).isEmpty = true →
      (chatHandler method apiKey body stream).status = 400 ∧
      (chatHandler method apiKey body stream).streamBytes = "" ∧
      (chatHandler method apiKey body stream).apiCalled = false) := by
  refine ⟨?_, ?_, ?_⟩
  · intro hmethod
    simp [chatHandler, hmethod]
  · rintro hmethod hkey (rfl | rfl) <;>
    · subst hmethod
      obtain ⟨k, rfl⟩ := Option.ne_none_iff_exists'.mp hkey
      simp [chatHandler]
  · rintro ms hmethod hkey rfl hempty
    subst hmethod
    obtain ⟨k, rfl⟩ := Option.ne_none_iff_exists'.mp hkey
    simp [chatHandler, hempty]

/-- Witness for the amended claim C4 at concrete requests: a GET request, a
POST with a non-array `messages` field, and a POST with an empty message
list. -/
theorem chat_handler_rejections_witness :
    (chatHandler "GET" (some "k") none []).status = 405 ∧
    (chatHandler "POST" (some "k") (some MessagesField.notArray) []).status = 400 ∧
    (chatHandler "POST" (some "k") (some (MessagesField.arr [])) []).status = 400 := by
  refine ⟨?_, ?_, ?_⟩
  · exact ((chat_handler_rejections "GET" (some "k") none []).1 (by decide)).1
  · exact ((chat_handler_rejections "POST" (some "k")
      (some MessagesField.notArray) []).2.1 rfl (by decide) (Or.inr rfl)).1
  · exact ((chat_handler_rejections "POST" (some "k")
      (some (MessagesField.arr [])) []).2.2 [] rfl (by decide) rfl (by decide)).1

/-- Claim C7: login succeeds if and only if the stored users list contains
a user whose email matches the submitted one case-insensitively; on
success the matched stored user becomes the active user; on failure the
active-user key is unchanged. -/
theorem login_succeeds_iff_email_match (users : List User)
    (active : Option User) (email : String) :
    ((handleLogin users active email).1 = true ↔
      ∃ u ∈ users, jsToLowerString u.email = jsToLowerString email)
    ∧ ((handleLogin users active email).1 = true →
        ∃ u ∈ users, jsToLowerString u.email = jsToLowerString email ∧
          (handleLogin users active email).2 = some u)
    ∧ ((handleLogin users active email).1 = false →
        (handleLogin users active email).2 = active) := by
  cases hf : users.find?
      (fun u => jsToLowerString u.email == jsToLowerString email) with
  | none =>
    have hno := List.find?_eq_none.mp hf
    refine ⟨?_, ?_, ?_⟩
    · simp only [handleLogin, hf]
      constructor
      · intro h
        exact absurd h (by simp)
      · rintro ⟨u, hu, he⟩
        exact absurd (by simpa using he) (by simpa using hno u hu)
    · intro h
      rw [handleLogin, hf] at h
      exact absurd h (by simp)
    · intro _
      simp [handleLogin, hf]
  | some u =>
    have hmem := List.mem_of_find?_eq_some hf
    have hp : jsToLowerString u.email = jsToLowerString email := by
      have := List.find?_some hf
      simpa using this
    refine ⟨?_, ?_, ?_⟩
    · constructor
      · intro _
        exact ⟨u, hmem, hp⟩
      · intro _
        simp [handleLogin, hf]
    · intro _
      exact ⟨u, hmem, hp, by simp [handleLogin, hf]⟩
    · intro h
      rw [handleLogin, hf] at h
      exact absurd h (by simp)

/-- Witness for claim C7: logging in with a differently-cased email finds
the stored user and makes them active. -/
theorem login_succeeds_iff_email_match_witness :
    ∃ u ∈ [demoUser],
      jsToLowerString u.email = jsToLowerString "ALICE@EXAMPLE.COM" ∧
      (handleLogin [demoUser] none "ALICE@EXAMPLE.COM").2 = some u := by
  have h := (login_succeeds_iff_email_match [demoUser] none
    "ALICE@EXAMPLE.COM").2.1 (by decide)
  exact h

/-- Counterexample to claim C5 as stated: a history holding a file part is
not persisted whole — the serialized value differs from the whole-object
serialization because the base64 `data` field is dropped. -/
theorem history_save_counterexample :
    (saveHistoryEffect demoUser [demoFileSession]).2 ≠
      saveHistorySpec [demoFileSession] := by
  decide

/-- Claim C5 as amended: the value written under the key
`indie-coach-history-<email>` is the whole-object serialization of the
chat history — every session, message, and part unchanged — except that
the base64 `data` field of every file part is omitted. -/
theorem history_save_drops_file_data (u : User) (chatHistory : List ChatSession) :
    saveHistoryEffect u chatHistory =
      ("indie-coach-history-" ++ u.email,
        (saveHistorySpec chatHistory).map fun s =>
          ⟨s.id, s.title, s.messages.map fun m =>
            ⟨m.role, m.parts.map removeSavedFileData, m.timestamp⟩⟩) := by
  have hp : ∀ p : AppPart, removeSavedFileData (savePartSpec p) = savePart p := by
    intro p
    cases p <;> rfl
  simp [saveHistoryEffect, saveHistorySpec, saveSession, saveMessage,
    List.map_map, Function.comp_def, hp]

/-- `startsWithL` accepts an actual prefix. -/
theorem startsWithL_append (p t : List Char) : startsWithL p (p ++ t) = true := by
  induction p with
  | nil => rfl
  | cons c cs ih => simp [startsWithL, ih]

/-- A successful `startsWithL` exhibits the suffix. -/
theorem startsWithL_eq_append (p s : List Char) (h : startsWithL p s = true) :
    s = p ++ s.drop p.length := by
  induction p generalizing s with
  | nil => simp
  | cons c cs ih =>
    cases s with
    | nil => exact absurd h (by simp [startsWithL])
    | cons b bs =>
      simp only [startsWithL, Bool.and_eq_true, beq_iff_eq] at h
      obtain ⟨rfl, h2⟩ := h
      simp only [List.cons_append, List.length_cons, List.drop_succ_cons]
      exact congrArg (c :: ·) (ih bs h2)

/-- Unfolding equation for `findClose` on a non-empty list. -/
theorem findClose_cons (c : Char) (cs : List Char) :
    findClose (c :: cs) =
      if startsWithL closeTagL (c :: cs) then
        some ([], (c :: cs).drop closeTagL.length)
      else if c == '\n' || c == '\r' then none
      else
        match findClose cs with
        | some (int, rest) => some (c :: int, rest)
        | none => none := rfl

/-- Unfolding equation for `findMatch` on a non-empty list. -/
theorem findMatch_cons (c : Char) (cs : List Char) :
    findMatch (c :: cs) =
      if startsWithL openTagL (c :: cs) then
        match findClose ((c :: cs).drop openTagL.length) with
        | some (int, rest) => some ([], int, rest)
        | none =>
          match findMatch cs with
          | some (pre, int, rest) => some (c :: pre, int, rest)
          | none => none
      else
        match findMatch cs with
        | some (pre, int, rest) => some (c :: pre, int, rest)
        | none => none := rfl

/-- When the closing tag starts the input, the search stops at once with
an empty interior. -/
theorem findClose_startsWith (s : List Char)
    (h : startsWithL closeTagL s = true) :
    findClose s = some ([], s.drop closeTagL.length) := by
  cases s with
  | nil => exact absurd h (by decide)
  | cons c cs => rw [findClose_cons, if_pos h]

/-- Completeness of the lazy close-tag search: on an interior free of line
breaks in which the closing tag never starts early, it returns that
interior and the trailing text. -/
theorem findClose_complete (int rest : List Char)
    (hnl : ∀ c ∈ int, c ≠ '\n' ∧ c ≠ '\r')
    (hfirst : ∀ p, p < int.length →
      startsWithL closeTagL ((int ++ (closeTagL ++ rest)).drop p) = false) :
    findClose (int ++ (closeTagL ++ rest)) = some (int, rest) := by
  induction int with
  | nil =>
    rw [List.nil_append, findClose_startsWith _ (startsWithL_append _ _),
      List.drop_left]
  | cons c tl ih =>
    have hc := hnl c (List.mem_cons_self c tl)
    have h0 : startsWithL closeTagL (c :: (tl ++ (closeTagL ++ rest))) = false := by
      have h := hfirst 0 (by simp)
      simpa using h
    have hcc : (c == '\n' || c == '\r') = false := by
      simp [hc.1, hc.2]
    have htl : findClose (tl ++ (closeTagL ++ rest)) = some (tl, rest) := by
      refine ih (fun x hx => hnl x (List.mem_cons_of_mem c hx)) ?_
      intro p hp
      have h := hfirst (p + 1) (by simpa using Nat.succ_lt_succ hp)
      simpa using h
    rw [List.cons_append, findClose_cons, h0, hcc, htl]
    simp

/-- Soundness of the lazy close-tag search: a hit decomposes the input and
the interior has no line break. -/
theorem findClose_sound (s int rest : List Char)
    (h : findClose s = some (int, rest)) :
    s = int ++ (closeTagL ++ rest) ∧ ∀ c ∈ int, c ≠ '\n' ∧ c ≠ '\r' := by
  induction s generalizing int rest with
  | nil => simp [findClose] at h
  | cons c cs ih =>
    rw [findClose_cons] at h
    by_cases h1 : startsWithL closeTagL (c :: cs) = true
    · rw [if_pos h1] at h
      simp only [Option.some.injEq, Prod.mk.injEq] at h
      obtain ⟨rfl, rfl⟩ := h
      refine ⟨?_, by simp⟩
      simpa using startsWithL_eq_append closeTagL (c :: cs) h1
    · rw [if_neg h1] at h
      by_cases h2 : (c == '\n' || c == '\r') = true
      · rw [if_pos h2] at h
        exact absurd h (by simp)
      · rw [if_neg h2] at h
        simp only [Bool.or_eq_true, beq_iff_eq, not_or] at h2
        cases hf : findClose cs with
        | none =>
          rw [hf] at h
          exact absurd h (by simp)
        | some pr =>
          obtain ⟨int', rest'⟩ := pr
          rw [hf] at h
          simp only [Option.some.injEq, Prod.mk.injEq] at h
          obtain ⟨rfl, rfl⟩ := h
          obtain ⟨hs2, hnl⟩ := ih int' rest' hf
          refine ⟨?_, ?_⟩
          · rw [List.cons_append, hs2]
          · intro x hx
            rcases List.mem_cons.mp hx with rfl | hx2
            · exact ⟨h2.1, h2.2⟩
            · exact hnl x hx2

/-- When the opening tag starts the input and the interior search after it
succeeds, the match is found at position zero. -/
theorem findMatch_startsWith_close (s int rest : List Char)
    (h : startsWithL openTagL s = true)
    (hc : findClose (s.drop openTagL.length) = some (int, rest)) :
    findMatch s = some ([], int, rest) := by
  cases s with
  | nil => exact absurd h (by decide)
  | cons c cs => rw [findMatch_cons, if_pos h, hc]

/-- Completeness of the leftmost-match search: on a text decomposed around
the first valid block, it returns that decomposition. -/
theorem findMatch_complete (pre int post : List Char)
    (hnl : ∀ c ∈ int, c ≠ '\n' ∧ c ≠ '\r')
    (hfirstOpen : ∀ p, p < pre.length →
      startsWithL openTagL
        ((pre ++ (openTagL ++ (int ++ (closeTagL ++ post)))).drop p) = false)
    (hfirstClose : ∀ p, p < int.length →
      startsWithL closeTagL ((int ++ (closeTagL ++ post)).drop p) = false) :
    findMatch (pre ++ (openTagL ++ (int ++ (closeTagL ++ post)))) =
      some (pre, int, post) := by
  induction pre with
  | nil =>
    rw [List.nil_append]
    refine findMatch_startsWith_close _ int post (startsWithL_append _ _) ?_
    rw [List.drop_left]
    exact findClose_complete int post hnl hfirstClose
  | cons c pre' ih =>
    have h0 : startsWithL openTagL
        (c :: (pre' ++ (openTagL ++ (int ++ (closeTagL ++ post))))) = false := by
      have h := hfirstOpen 0 (by simp)
      simpa using h
    have hshift : ∀ p, p < pre'.length →
        startsWithL openTagL
          ((pre' ++ (openTagL ++ (int ++ (closeTagL ++ post)))).drop p) = false := by
      intro p hp
      have h := hfirstOpen (p + 1) (by simpa using Nat.succ_lt_succ hp)
      simpa using h
    rw [List.cons_append, findMatch_cons, h0, ih hshift]
    simp

/-- Soundness of the leftmost-match search: a hit decomposes the input
around a block whose interior has no line break. -/
theorem findMatch_sound (s pre int post : List Char)
    (h : findMatch s = some (pre, int, post)) :
    s = pre ++ (openTagL ++ (int ++ (closeTagL ++ post))) ∧
      ∀ c ∈ int, c ≠ '\n' ∧ c ≠ '\r' := by
  induction s generalizing pre int post with
  | nil => simp [findMatch] at h
  | cons c cs ih =>
    rw [findMatch_cons] at h
    by_cases h1 : startsWithL openTagL (c :: cs) = true
    · rw [if_pos h1] at h
      cases hf : findClose ((c :: cs).drop openTagL.length) with
      | some pr =>
        obtain ⟨int', rest'⟩ := pr
        rw [hf] at h
        simp only [Option.some.injEq, Prod.mk.injEq] at h
        obtain ⟨rfl, rfl, rfl⟩ := h
        obtain ⟨hs2, hnl⟩ := findClose_sound _ _ _ hf
        refine ⟨?_, hnl⟩
        have hsw := startsWithL_eq_append openTagL (c :: cs) h1
        rw [List.nil_append, hsw, hs2]
      | none =>
        rw [hf] at h
        cases hm : findMatch cs with
        | none =>
          rw [hm] at h
          exact absurd h (by simp)
        | some tr =>
          obtain ⟨pre', int', post'⟩ := tr
          rw [hm] at h
          simp only [Option.some.injEq, Prod.mk.injEq] at h
          obtain ⟨rfl, rfl, rfl⟩ := h
          obtain ⟨hs2, hnl⟩ := ih pre' int' post' hm
          refine ⟨?_, hnl⟩
          rw [List.cons_append, hs2]
    · rw [if_neg h1] at h
      cases hm : findMatch cs with
      | none =>
        rw [hm] at h
        exact absurd h (by simp)
      | some tr =>
        obtain ⟨pre', int', post'⟩ := tr
        rw [hm] at h
        simp only [Option.some.injEq, Prod.mk.injEq] at h
        obtain ⟨rfl, rfl, rfl⟩ := h
        obtain ⟨hs2, hnl⟩ := ih pre' int' post' hm
        refine ⟨?_, hnl⟩
        rw [List.cons_append, hs2]

/-- When no part carries inline data, the scan finds nothing. -/
theorem firstInlinePart_eq_none (parts : List GenPart)
    (h : ∀ p ∈ parts, p.inlineData = none) : firstInlinePart parts = none := by
  induction parts with
  | nil => rfl
  | cons p ps ih =>
    have hp := h p (by simp)
    simp only [firstInlinePart, hp]
    exact ih fun x hx => h x (by simp [hx])

/-- The scan returns the first part that carries inline data. -/
theorem firstInlinePart_of_first (pre : List GenPart) (q : GenPart)
    (post : List GenPart) (d : InlineData)
    (hpre : ∀ p ∈ pre, p.inlineData = none) (hq : q.inlineData = some d) :
    firstInlinePart (pre ++ q :: post) = some d := by
  induction pre with
  | nil => simp [firstInlinePart, hq]
  | cons p ps ih =>
    have hp := hpre p (by simp)
    simp only [List.cons_append, firstInlinePart, hp]
    exact ih fun x hx => hpre x (by simp [hx])

/-- Counterexample to claim C8 as stated: (1) an empty string prompt is
rejected with 400 even though the model response carries inline data (the
claim demands 200 for every string prompt); (2) inline data that sits only
in the second candidate is never found, giving 500 where the claim demands
200; (3) with no API key configured, a missing-prompt request gets 500,
not 400. -/
theorem image_handler_counterexample :
    (imageHandler "POST" (some "k") (some (PromptField.str "")) demoInlineResp).status = 400
    ∧ ¬ (imageHandler "POST" (some "k") (some (PromptField.str "")) demoInlineResp).status = 200
    ∧ (imageHandler "POST" (some "k") (some (PromptField.str "logo"))
        demoSecondCandidateResp).status = 500
    ∧ (imageHandler "POST" none none demoInlineResp).status = 500 := by
  decide

/-- Claim C8 as amended: with the API key configured and a non-empty
string prompt, the handler answers 200 with the data URL
`data:<mime>;base64,<data>` built from the first inline-data part of the
first candidate; it answers 500 with an error JSON when the first
candidate (or the response around it) carries no inline-data part; and a
missing, non-string, or empty prompt yields 400. -/
theorem image_handler_behavior (key : String) (p : String) (resp : GenResponse)
    (hp : p ≠ "") :
    (∀ c rest cc parts pre q post d,
        resp.candidates = some (c :: rest) →
        c.content = some cc →
        cc.parts = some parts →
        parts = pre ++ q :: post →
        (∀ x ∈ pre, x.inlineData = none) →
        q.inlineData = some d →
      imageHandler "POST" (some key) (some (PromptField.str p)) resp =
        ⟨200, some ("data:" ++ d.mimeType ++ ";base64," ++ d.data), none⟩)
    ∧ ((∀ cands, resp.candidates = some cands →
          ∀ c, cands.head? = some c →
          ∀ cc, c.content = some cc →
          ∀ parts, cc.parts = some parts →
          ∀ x ∈ parts, x.inlineData = none) →
      (imageHandler "POST" (some key) (some (PromptField.str p)) resp).status = 500 ∧
      (imageHandler "POST" (some key) (some (PromptField.str p)) resp).imageUrl = none)
    ∧ (∀ pf, (pf = none ∨ pf = some PromptField.nonString ∨
          pf = some (PromptField.str "")) →
      (imageHandler "POST" (some key) pf resp).status = 400 ∧
      (imageHandler "POST" (some key) pf resp).imageUrl = none) := by
  refine ⟨?_, ?_, ?_⟩
  · rintro c rest cc parts pre q post d hc hcc hparts rfl hpre hq
    have hfirst := firstInlinePart_of_first pre q post d hpre hq
    simp [imageHandler, hp, hc, hcc, hparts, hfirst]
  · intro hnone
    cases hcands : resp.candidates with
    | none => simp [imageHandler, hp, hcands]
    | some cands =>
      cases cands with
      | nil => simp [imageHandler, hp, hcands]
      | cons c rest =>
        cases hcc : c.content with
        | none => simp [imageHandler, hp, hcands, hcc]
        | some cc =>
          cases hparts : cc.parts with
          | none => simp [imageHandler, hp, hcands, hcc, hparts]
          | some parts =>
            have hall := hnone (c :: rest) hcands c (by simp) cc hcc parts hparts
            have hfirst := firstInlinePart_eq_none parts hall
            simp [imageHandler, hp, hcands, hcc, hparts, hfirst]
  · rintro pf (rfl | rfl | rfl) <;> simp [imageHandler]

/-- Witness for the amended claim C8: a concrete successful generation and
a concrete rejected empty prompt. -/
theorem image_handler_behavior_witness :
    imageHandler "POST" (some "k") (some (PromptField.str "logo")) demoInlineResp =
      ⟨200, some "data:image/png;base64,QUJD", none⟩ := by
  have h := (image_handler_behavior "k" "logo" demoInlineResp (by decide)).1
    ⟨some ⟨some [demoTextPart, demoInlinePart]⟩⟩ []
    ⟨some [demoTextPart, demoInlinePart]⟩ [demoTextPart, demoInlinePart]
    [demoTextPart] demoInlinePart [] ⟨"image/png", "QUJD"⟩
    rfl rfl rfl rfl (by decide) rfl
  rw [h]
  decide

/-- Counterexample to claim C2 as stated: on the accumulated response
`Hello[SUGGESTIONS][/SUGGESTIONS]` — which contains a (newline-free)
tagged block with empty interior — the code leaves the block in the final
message text, whereas the claim requires the block to be removed and the
text trimmed (yielding `Hello`). -/
theorem stream_suggestions_counterexample :
    "Hello[SUGGESTIONS][/SUGGESTIONS]".toList =
      "Hello".toList ++ (openTagL ++ (([] : List Char) ++ (closeTagL ++ [])))
    ∧ (processResponse ("Hello[SUGGESTIONS][/SUGGESTIONS]".toList)).1 =
        "Hello[SUGGESTIONS][/SUGGESTIONS]".toList
    ∧ ¬ (processResponse ("Hello[SUGGESTIONS][/SUGGESTIONS]".toList)).1 =
        jsTrim ("Hello".toList ++ ([] : List Char)) := by
  decide

/-- Claim C2 as amended: after the stream completes, (1) if the
accumulated text contains a tagged block `[SUGGESTIONS]...[/SUGGESTIONS]`
with no line break inside and a non-empty interior (the first such block:
the opening tag does not start earlier and the closing tag does not cut
the interior short), then the follow-up prompts are exactly the
pipe-separated substrings of the interior, trimmed, with empty entries
removed, and the final message text is the full text with the block
removed and trimmed; (2) if no newline-free block is present at all, the
final text is the full text unchanged and no prompts are set; and (3) if
the first block has an empty interior, the final text is likewise the
full text unchanged — block included — and no prompts are set. -/
theorem stream_suggestions_parsing :
    (∀ full pre int post : List Char,
        full = pre ++ (openTagL ++ (int ++ (closeTagL ++ post))) →
        (∀ c ∈ int, c ≠ '\n' ∧ c ≠ '\r') →
        (∀ p, p < pre.length → startsWithL openTagL (full.drop p) = false) →
        (∀ p, p < int.length →
          startsWithL closeTagL ((int ++ (closeTagL ++ post)).drop p) = false) →
        int ≠ [] →
      processResponse full =
        (jsTrim (pre ++ post),
          ((int.splitOn ('|')).map jsTrim).filter (fun s => s ≠ [])))
    ∧ (∀ full : List Char,
        (¬ ∃ pre int post : List Char,
          full = pre ++ (openTagL ++ (int ++ (closeTagL ++ post))) ∧
            ∀ c ∈ int, c ≠ '\n' ∧ c ≠ '\r') →
      processResponse full = (full, []))
    ∧ (∀ full pre post : List Char,
        full = pre ++ (openTagL ++ (([] : List Char) ++ (closeTagL ++ post))) →
        (∀ p, p < pre.length → startsWithL openTagL (full.drop p) = false) →
      processResponse full = (full, [])) := by
  refine ⟨?_, ?_, ?_⟩
  · intro full pre int post heq hnl hopen hclose hne
    subst heq
    have hfm := findMatch_complete pre int post hnl hopen hclose
    simp only [processResponse, hfm]
    rw [if_neg hne]
  · intro full hno
    cases hm : findMatch full with
    | none => simp [processResponse, hm]
    | some tr =>
      obtain ⟨pre, int, post⟩ := tr
      obtain ⟨hs2, hnl⟩ := findMatch_sound full pre int post hm
      exact absurd ⟨pre, int, post, hs2, hnl⟩ hno
  · intro full pre post heq hopen
    subst heq
    have hfm := findMatch_complete pre [] post (by simp) hopen
      (by intro p hp; simp at hp)
    rw [List.nil_append] at hfm
    simp [processResponse, hfm]

/-- Witness for the amended claim C2: a concrete response with a
suggestion block (whitespace and an empty entry included), a concrete
response with no block, and a concrete response whose block has an empty
interior. -/
theorem stream_suggestions_parsing_witness :
    processResponse ("Hi! [SUGGESTIONS] A | B |[/SUGGESTIONS] ".toList) =
      ("Hi!".toList, ["A".toList, "B".toList])
    ∧ processResponse ("No tags here.".toList) = ("No tags here.".toList, [])
    ∧ processResponse ("Hey [SUGGESTIONS][/SUGGESTIONS] there".toList) =
        ("Hey [SUGGESTIONS][/SUGGESTIONS] there".toList, []) := by
  refine ⟨?_, ?_, ?_⟩
  · have h := stream_suggestions_parsing.1
      ("Hi! [SUGGESTIONS] A | B |[/SUGGESTIONS] ".toList)
      ("Hi! ".toList) (" A | B |".toList) (" ".toList)
      (by decide) (by decide) (by decide) (by decide) (by decide)
    rw [h]
    decide
  · refine stream_suggestions_parsing.2.1 ("No tags here.".toList) ?_
    rintro ⟨pre, int, post, heq, -⟩
    have hmem : '[' ∈ "No tags here.".toList := by
      rw [heq]
      exact List.mem_append.mpr (Or.inr (List.mem_append.mpr (Or.inl (by decide))))
    exact absurd hmem (by decide)
  · exact stream_suggestions_parsing.2.2
      ("Hey [SUGGESTIONS][/SUGGESTIONS] there".toList)
      ("Hey ".toList) (" there".toList) (by decide) (by decide)

end IndieCoach
